import Mathlib

/-!
Verification of the media transcript acquisition pipeline (`YtdlpService`):
the VTT and JSON3 subtitle parsers, subtitle-track discovery, the on-disk
transcript cache, and the subprocess-driven fetch operations.

The TypeScript source is shallowly embedded: strings are processed as
`List Char` (JavaScript `split`/`trim`/regex operations are reimplemented
character by character), fractional-second timestamps are rationals, the
filesystem is an association list from path to file data, and the external
`yt-dlp` subprocess is an arbitrary function (`Runner`) from argument list
and filesystem to an exit outcome plus a new filesystem.  JavaScript
exceptions are `Except` values.
-/

namespace Ytdlp

/-! ## Character-list utilities mirroring the JavaScript string operations -/

/-- JavaScript `String.prototype.trim` on a character list:
drop whitespace from both ends. -/
def jsTrim (l : List Char) : List Char :=
  ((l.dropWhile Char.isWhitespace).reverse.dropWhile Char.isWhitespace).reverse

/-- JavaScript `str.split('\n')` (always returns at least one piece,
keeps empty pieces). -/
def splitLinesAux : List Char → List Char → List (List Char)
  | [], acc => [acc.reverse]
  | c :: rest, acc =>
    if c = '\n' then acc.reverse :: splitLinesAux rest []
    else splitLinesAux rest (c :: acc)

/-- Split a character list into its newline-separated lines. -/
def splitLines (l : List Char) : List (List Char) := splitLinesAux l []

/-- JavaScript `str.includes(pat)`: `pat` occurs as a contiguous substring. -/
def listContains (pat : List Char) : List Char → Bool
  | [] => pat.isPrefixOf ([] : List Char)
  | c :: rest => pat.isPrefixOf (c :: rest) || listContains pat rest

/-- The regex test `/^\d+$/`: nonempty and all decimal digits. -/
def isAllDigits (l : List Char) : Bool :=
  !l.isEmpty && l.all Char.isDigit

/-- One pass of the global regex replacement `/<[^>]+>/g` → `''`.
The second argument is `none` when outside a candidate tag and `some buf`
(reversed characters seen after `<`) when inside one. -/
def stripTagsAux : List Char → Option (List Char) → List Char
  | [], none => []
  | [], some buf => '<' :: buf.reverse
  | c :: rest, none =>
    if c = '<' then stripTagsAux rest (some [])
    else c :: stripTagsAux rest none
  | c :: rest, some buf =>
    if c = '>' then
      if buf = [] then '<' :: '>' :: stripTagsAux rest none
      else stripTagsAux rest none
    else stripTagsAux rest (some (c :: buf))

/-- Remove every `<...>` markup tag (at least one non-`>` character inside),
as the source's `replace(/<[^>]+>/g, '')`. -/
def stripTags (l : List Char) : List Char := stripTagsAux l none

/-- Global replacement of the literal `&nbsp;` by a space. -/
def replaceNbsp : List Char → List Char
  | '&' :: 'n' :: 'b' :: 's' :: 'p' :: ';' :: rest => ' ' :: replaceNbsp rest
  | c :: rest => c :: replaceNbsp rest
  | [] => []

/-- Global replacement of the literal `&amp;` by `&`. -/
def replaceAmp : List Char → List Char
  | '&' :: 'a' :: 'm' :: 'p' :: ';' :: rest => '&' :: replaceAmp rest
  | c :: rest => c :: replaceAmp rest
  | [] => []

/-- Global replacement of the literal `&lt;` by `<`. -/
def replaceLt : List Char → List Char
  | '&' :: 'l' :: 't' :: ';' :: rest => '<' :: replaceLt rest
  | c :: rest => c :: replaceLt rest
  | [] => []

/-- Global replacement of the literal `&gt;` by `>`. -/
def replaceGt : List Char → List Char
  | '&' :: 'g' :: 't' :: ';' :: rest => '>' :: replaceGt rest
  | c :: rest => c :: replaceGt rest
  | [] => []

/-- JavaScript `str.replace(' (auto)', '')`: remove the first occurrence
of the pattern (String `replace` with a string pattern is first-match only). -/
def removeFirstOcc (pat : List Char) : List Char → List Char
  | [] => []
  | c :: rest =>
    if pat.isPrefixOf (c :: rest) then (c :: rest).drop pat.length
    else c :: removeFirstOcc pat rest

/-- `lang.replace(' (auto)', '')` from the source. -/
def cleanLangOf (lang : String) : String :=
  String.mk (removeFirstOcc " (auto)".toList lang.toList)

/-- `Array.prototype.join('\n')`. -/
def joinNl : List (List Char) → List Char
  | [] => []
  | [x] => x
  | x :: xs => x ++ '\n' :: joinNl xs

/-- `Array.prototype.join(' ')`. -/
def joinSpace : List (List Char) → List Char
  | [] => []
  | [x] => x
  | x :: xs => x ++ ' ' :: joinSpace xs

/-! ## The plain-text VTT parser (`parseVttToText`, source lines 281–318) -/

/-- A subtitle cue: start and end offsets in fractional seconds plus the
cleaned caption text (`SubtitleEntry` in the source). -/
structure SubtitleEntry where
  start : ℚ
  «end» : ℚ
  text : String
deriving DecidableEq, Repr

/-- The skip test of `parseVttToText`: header marker, empty line, timestamp
line (contains `-->`), purely numeric cue index, or metadata prefix. -/
def vttSkipText (trimmed : List Char) : Bool :=
  trimmed == "WEBVTT".toList ||
  trimmed == [] ||
  listContains "-->".toList trimmed ||
  isAllDigits trimmed ||
  "Kind:".toList.isPrefixOf trimmed ||
  "Language:".toList.isPrefixOf trimmed

/-- Cleaning of one accepted line: strip `<...>` tags, unescape the four
HTML entities (in the source's order), and trim. -/
def cleanLine (trimmed : List Char) : List Char :=
  jsTrim (replaceGt (replaceLt (replaceAmp (replaceNbsp (stripTags trimmed)))))

/-- The accumulation loop of `parseVttToText`: `lastText` is the previously
accepted line (initially empty); a cleaned line is appended only when
nonempty and different from `lastText`. -/
def vttTextLoop : List (List Char) → List Char → List (List Char)
  | [], _ => []
  | line :: rest, lastText =>
    if vttSkipText (jsTrim line) then vttTextLoop rest lastText
    else if cleanLine (jsTrim line) ≠ [] ∧ cleanLine (jsTrim line) ≠ lastText then
      cleanLine (jsTrim line) :: vttTextLoop rest (cleanLine (jsTrim line))
    else vttTextLoop rest lastText

/-- `parseVttToText`: flatten a VTT payload to a newline-joined deduplicated
plain-text transcript. -/
def parseVttToText (vtt : String) : String :=
  String.mk (joinNl (vttTextLoop (splitLines vtt.toList) []))

/-! ## The timestamped-entries VTT parser (`parseVttToEntries`, lines 320–373) -/

/-- The eight captured groups of the timestamp-range regex
`(\d{2}):(\d{2}):(\d{2})\.(\d{3})\s*-->\s*(\d{2}):(\d{2}):(\d{2})\.(\d{3})`. -/
structure TsRaw where
  h1 : Nat
  m1 : Nat
  s1 : Nat
  ms1 : Nat
  h2 : Nat
  m2 : Nat
  s2 : Nat
  ms2 : Nat
deriving DecidableEq, Repr

/-- Numeric value of a decimal digit character. -/
def digitVal (c : Char) : Nat := c.toNat - 48

/-- Parse exactly two decimal digits (regex `\d{2}`). -/
def twoDigits : List Char → Option (Nat × List Char)
  | a :: b :: rest =>
    if a.isDigit && b.isDigit then some (digitVal a * 10 + digitVal b, rest)
    else none
  | _ => none

/-- Parse exactly three decimal digits (regex `\d{3}`). -/
def threeDigits : List Char → Option (Nat × List Char)
  | a :: b :: c :: rest =>
    if a.isDigit && b.isDigit && c.isDigit then
      some (digitVal a * 100 + digitVal b * 10 + digitVal c, rest)
    else none
  | _ => none

/-- Expect one specific character. -/
def expectChar (c : Char) : List Char → Option (List Char)
  | x :: rest => if x = c then some rest else none
  | [] => none

/-- Parse one `HH:MM:SS.mmm` timestamp, returning the four number groups and
the remaining input. -/
def timeGroups (l : List Char) : Option (Nat × Nat × Nat × Nat × List Char) := do
  let (h, l) ← twoDigits l
  let l ← expectChar ':' l
  let (m, l) ← twoDigits l
  let l ← expectChar ':' l
  let (s, l) ← twoDigits l
  let l ← expectChar '.' l
  let (ms, l) ← threeDigits l
  pure (h, m, s, ms, l)

/-- Attempt the timestamp-range regex at the start of the input. -/
def matchTsAt (l : List Char) : Option TsRaw := do
  let (h1, m1, s1, ms1, l) ← timeGroups l
  let l := l.dropWhile Char.isWhitespace
  let l ← expectChar '-' l
  let l ← expectChar '-' l
  let l ← expectChar '>' l
  let l := l.dropWhile Char.isWhitespace
  let (h2, m2, s2, ms2, _) ← timeGroups l
  pure ⟨h1, m1, s1, ms1, h2, m2, s2, ms2⟩

/-- Unanchored regex search (`String.prototype.match`): try every start
position, leftmost match wins. -/
def findTs : List Char → Option TsRaw
  | [] => none
  | c :: rest =>
    match matchTsAt (c :: rest) with
    | some r => some r
    | none => findTs rest

/-- Start offset in integer milliseconds.  The source computes fractional
seconds `hours*3600 + minutes*60 + seconds + millis/1000`; every such value
is exactly `tsStartMs/1000`, and the parser's control flow never inspects
the value, so times are tracked as integer milliseconds and divided by 1000
at the boundary (see `msEntryToRat` and `tsStartMs_toRat`). -/
def tsStartMs (r : TsRaw) : Nat :=
  r.h1 * 3600000 + r.m1 * 60000 + r.s1 * 1000 + r.ms1

/-- End offset in integer milliseconds. -/
def tsEndMs (r : TsRaw) : Nat :=
  r.h2 * 3600000 + r.m2 * 60000 + r.s2 * 1000 + r.ms2

/-- `tsStartMs/1000` is exactly the source's fractional-second formula. -/
theorem tsStartMs_toRat (r : TsRaw) :
    (tsStartMs r : ℚ) / 1000 =
      (r.h1 : ℚ) * 3600 + (r.m1 : ℚ) * 60 + (r.s1 : ℚ) + (r.ms1 : ℚ) / 1000 := by
  unfold tsStartMs
  push_cast
  ring

/-- `tsEndMs/1000` is exactly the source's fractional-second formula. -/
theorem tsEndMs_toRat (r : TsRaw) :
    (tsEndMs r : ℚ) / 1000 =
      (r.h2 : ℚ) * 3600 + (r.m2 : ℚ) * 60 + (r.s2 : ℚ) + (r.ms2 : ℚ) / 1000 := by
  unfold tsEndMs
  push_cast
  ring

/-- The skip test of `parseVttToEntries` (checked after the timestamp match;
unlike `vttSkipText` it does not test for `-->`). -/
def vttSkipEntries (trimmed : List Char) : Bool :=
  trimmed == "WEBVTT".toList ||
  trimmed == [] ||
  isAllDigits trimmed ||
  "Kind:".toList.isPrefixOf trimmed ||
  "Language:".toList.isPrefixOf trimmed

/-- A subtitle cue with integer-millisecond offsets (the computational
representation of `SubtitleEntry`; every time in the source is an exact
multiple of 1/1000 s). -/
structure SubtitleEntryMs where
  startMs : Nat
  endMs : Nat
  text : String
deriving DecidableEq, Repr

/-- Convert a millisecond entry to the source's fractional-second entry. -/
def msEntryToRat (e : SubtitleEntryMs) : SubtitleEntry :=
  ⟨(e.startMs : ℚ) / 1000, (e.endMs : ℚ) / 1000, e.text⟩

/-- Build one emitted entry: text lines joined by a space, tags stripped,
trimmed. -/
def mkVttEntryMs (cs ce : Nat) (ct : List (List Char)) : SubtitleEntryMs :=
  ⟨cs, ce, String.mk (jsTrim (stripTags (joinSpace ct)))⟩

/-- The block loop of `parseVttToEntries`: `cs`/`ce` are the current block's
start and end (initially 0), `ct` the accumulated text lines.  A timestamp
line flushes the pending block; the final block is flushed at end of input. -/
def vttEntriesLoop : List (List Char) → Nat → Nat → List (List Char) → List SubtitleEntryMs
  | [], cs, ce, ct => if ct = [] then [] else [mkVttEntryMs cs ce ct]
  | line :: rest, cs, ce, ct =>
    match findTs (jsTrim line) with
    | some r =>
      (if ct = [] then [] else [mkVttEntryMs cs ce ct]) ++
        vttEntriesLoop rest (tsStartMs r) (tsEndMs r) []
    | none =>
      if vttSkipEntries (jsTrim line) then vttEntriesLoop rest cs ce ct
      else vttEntriesLoop rest cs ce (ct ++ [jsTrim line])

/-- `parseVttToEntries`: parse a VTT payload into timestamped entries. -/
def parseVttToEntries (vtt : String) : List SubtitleEntry :=
  (vttEntriesLoop (splitLines vtt.toList) 0 0 []).map msEntryToRat

example : vttEntriesLoop (splitLines
    "WEBVTT\n\n00:00:01.000 --> 00:00:02.500\nHello\n\n00:00:02.500 --> 00:00:04.000\nHello\n".toList) 0 0 [] =
    [⟨1000, 2500, "Hello"⟩, ⟨2500, 4000, "Hello"⟩] := by decide

example : parseVttToText
    "WEBVTT\n\n00:00:01.000 --> 00:00:02.500\nHello\n\n00:00:02.500 --> 00:00:04.000\nHello\n" =
    "Hello" := by decide

/-! ## The JSON3 event-stream extraction (`getSubtitleWithTimestamps`, lines 215–239) -/

/-- One JSON3 text segment; `utf8` may be absent. -/
structure Json3Seg where
  utf8 : Option String
deriving DecidableEq, Repr

/-- One JSON3 caption event; every field may be absent. -/
structure Json3Event where
  segs : Option (List Json3Seg)
  tStartMs : Option Nat
  dDurationMs : Option Nat
deriving DecidableEq, Repr

/-- A parsed JSON3 document; the `events` list may be absent. -/
structure Json3Doc where
  events : Option (List Json3Event)
deriving DecidableEq, Repr

/-- `s.utf8 || ''`: an absent field defaults to the empty string (and the
JavaScript `||` also maps an empty string to the empty string). -/
def segText (s : Json3Seg) : String := s.utf8.getD ""

/-- The event loop of `getSubtitleWithTimestamps`: an event without a `segs`
field is skipped, the segment texts are concatenated with no separator and
trimmed, an empty result skips the event, and otherwise one entry is pushed
with `start = tStartMs/1000` and `end = (tStartMs + dDurationMs)/1000`
(both fields defaulting to 0). -/
def json3EntriesLoop : List Json3Event → List SubtitleEntry
  | [] => []
  | e :: rest =>
    match e.segs with
    | none => json3EntriesLoop rest
    | some segs =>
      if (String.join (segs.map segText)).trim ≠ "" then
        ⟨(e.tStartMs.getD 0 : ℚ) / 1000,
         ((e.tStartMs.getD 0 + e.dDurationMs.getD 0 : Nat) : ℚ) / 1000,
         (String.join (segs.map segText)).trim⟩ :: json3EntriesLoop rest
      else json3EntriesLoop rest

/-- Entries of a JSON3 document: empty when the `events` field is absent. -/
def json3Entries (d : Json3Doc) : List SubtitleEntry :=
  match d.events with
  | none => []
  | some evs => json3EntriesLoop evs

/-- Modelled from the spec's words (§4.5), for comparison with the code's
`json3EntriesLoop`: keep exactly the events whose trimmed no-separator
segment concatenation is nonempty, emitting `start = startMs/1000` and
`end = (startMs + durationMs)/1000` with absent fields defaulted. -/
def json3SpecEntries (evs : List Json3Event) : List SubtitleEntry :=
  evs.filterMap fun e =>
    match e.segs with
    | none => none
    | some segs =>
      if (String.join (segs.map fun s => s.utf8.getD "")).trim = "" then none
      else some ⟨(e.tStartMs.getD 0 : ℚ) / 1000,
                 ((e.tStartMs.getD 0 : ℚ) + (e.dDurationMs.getD 0 : ℚ)) / 1000,
                 (String.join (segs.map fun s => s.utf8.getD "")).trim⟩

/-! ## Track discovery (`getVideoInfo`, lines 94–126) -/

/-- One upstream caption track variant (an element of the per-language track
lists in the metadata payload). -/
structure TrackRaw where
  ext : String
  url : String
  name : Option String
deriving DecidableEq, Repr

/-- An exposed subtitle track (`SubtitleTrack` in the source). -/
structure SubtitleTrack where
  lang : String
  name : String
  url : Option String
  content : Option String
deriving DecidableEq, Repr

/-- The caption-relevant part of the parsed `--dump-json` metadata payload:
`subtitles` and `automatic_captions` are JSON objects, modelled as ordered
association lists (`Object.entries` order) with the key-uniqueness that JSON
parsing guarantees left as a hypothesis where needed. -/
structure RawInfo where
  subtitles : Option (List (String × List TrackRaw))
  automatic_captions : Option (List (String × List TrackRaw))
deriving DecidableEq, Repr

/-- JavaScript `a || b` for an optional string: absent or empty falls back. -/
def jsOr (o : Option String) (d : String) : String :=
  match o with
  | some s => if s = "" then d else s
  | none => d

/-- `trackList.find(t => t.ext === 'vtt') || trackList[0]`. -/
def pickTrack (trackList : List TrackRaw) : Option TrackRaw :=
  match trackList.find? (fun t => t.ext == "vtt") with
  | some t => some t
  | none => trackList.head?

/-- The manual-subtitles loop: one exposed track per language group with a
pickable variant, in `Object.entries` order. -/
def manualTracks : List (String × List TrackRaw) → List SubtitleTrack
  | [] => []
  | (lang, tl) :: rest =>
    match pickTrack tl with
    | some t => ⟨lang, jsOr t.name lang, some t.url, none⟩ :: manualTracks rest
    | none => manualTracks rest

/-- The display name synthesized for an automatic track with no upstream
name (`` `${lang} (自动生成)` `` in the source). -/
def autoName (lang : String) : String := lang ++ " (自动生成)"

/-- The exposed form of an automatic caption track. -/
def mkAutoTrack (lang : String) (t : TrackRaw) : SubtitleTrack :=
  ⟨lang ++ " (auto)", jsOr t.name (autoName lang), some t.url, none⟩

/-- The automatic-captions loop: a language already present in the
accumulated track list (compared against the raw language code) is skipped;
otherwise the picked variant is appended with an `" (auto)"`-suffixed code. -/
def addAutoTracks (acc : List SubtitleTrack) : List (String × List TrackRaw) → List SubtitleTrack
  | [] => acc
  | (lang, tl) :: rest =>
    if ((acc.find? (fun s => s.lang == lang)).isSome : Bool) then addAutoTracks acc rest
    else
      match pickTrack tl with
      | some t => addAutoTracks (acc ++ [mkAutoTrack lang t]) rest
      | none => addAutoTracks acc rest

/-- The subtitle-track list assembled by `getVideoInfo` from a metadata
payload: manual tracks first, then non-colliding automatic tracks. -/
def getVideoInfoTracks (info : RawInfo) : List SubtitleTrack :=
  addAutoTracks (manualTracks (info.subtitles.getD [])) (info.automatic_captions.getD [])

/-! ## Filesystem and subprocess model -/

/-- Content of one file: its text, plus what `JSON.parse` of that text would
yield (`none` when `JSON.parse` would throw).  The external tool writes
arbitrary files, so both views are free. -/
structure FileData where
  str : String
  json : Option Json3Doc
deriving DecidableEq, Repr

/-- The scratch/cache directory state: an association list from path to
file data (first match wins). -/
abbrev FS := List (String × FileData)

/-- Look a path up. -/
def fsLookup : FS → String → Option FileData
  | [], _ => none
  | (k, v) :: rest, p => if k = p then some v else fsLookup rest p

/-- Remove every entry at a path (`fs.unlinkSync`). -/
def fsErase : FS → String → FS
  | [], _ => []
  | (k, v) :: rest, p => if k = p then fsErase rest p else (k, v) :: fsErase rest p

/-- `fs.existsSync`. -/
def existsSync (fs : FS) (p : String) : Bool := (fsLookup fs p).isSome

/-- `fs.readFileSync` (only ever called on paths that exist). -/
def readFile (fs : FS) (p : String) : FileData := (fsLookup fs p).getD ⟨"", none⟩

/-- `fs.writeFileSync`: overwrite. -/
def writeFile (fs : FS) (p : String) (d : FileData) : FS := (p, d) :: fsErase fs p

/-- Outcome of one spawned `yt-dlp` process: either the `close` event with
an exit code and the fully accumulated stdout/stderr text, or the `error`
event (the process could not be started).  Both carry the filesystem as the
tool left it. -/
inductive ExecResult where
  | closed (code : Int) (stdout : String) (stderr : String) (fs : FS)
  | failed (msg : String) (fs : FS)
deriving DecidableEq, Repr

/-- The filesystem component of an `ExecResult`. -/
def execResFs : ExecResult → FS
  | .closed _ _ _ fs => fs
  | .failed _ fs => fs

/-- A subprocess behaviour: from argument list and filesystem to outcome.
Universally quantifying over this models an arbitrary external tool. -/
abbrev Runner := List String → FS → ExecResult

/-- The error taxonomy of the service, one constructor per distinct `throw`
site: the non-zero-exit rejection (with exit code and captured stderr), the
spawn-failure rejection, a `JSON.parse` throw, and the explicit
`Subtitle file not found after download` throw. -/
inductive YtError where
  | extractionFailed (code : Int) (stderr : String)
  | toolUnavailable (msg : String)
  | jsonParseError
  | subtitleNotFound
deriving DecidableEq, Repr

/-- `getBrowser`: the persisted `ytdlpBrowser` setting, with `row?.value ||
'chrome'` defaulting. -/
def getBrowser (settings : Option String) : String :=
  match settings with
  | some v => if v = "" then "chrome" else v
  | none => "chrome"

/-- The argument list actually passed to the tool: `--cookies-from-browser
<browser>` is prepended when `useCookies` is set (it is at every call site). -/
def finalArgs (settings : Option String) (useCookies : Bool) (args : List String) : List String :=
  if useCookies then "--cookies-from-browser" :: getBrowser settings :: args
  else args

/-- `execYtdlp`: run the tool and map its outcome — stdout on exit code 0,
`extractionFailed` with code and stderr on a non-zero exit, and
`toolUnavailable` when the process could not be started. -/
def execYtdlp (runner : Runner) (settings : Option String) (useCookies : Bool)
    (args : List String) (fs : FS) : Except YtError String × FS :=
  match runner (finalArgs settings useCookies args) fs with
  | .closed code out err g =>
    if code = 0 then (.ok out, g) else (.error (.extractionFailed code err), g)
  | .failed msg g => (.error (.toolUnavailable msg), g)

/-- The canonical watch URL built from the video id. -/
def watchUrl (videoId : String) : String :=
  "https://www.youtube.com/watch?v=" ++ videoId

/-- The cache file path `cacheDir/videoId_lang.txt`. -/
def cachePath (cacheDir videoId lang : String) : String :=
  cacheDir ++ "/" ++ videoId ++ "_" ++ lang ++ ".txt"

/-- The subtitle-download argument list of `downloadSubtitle` and
`getSubtitleFromVtt` (format `vtt`). -/
def subArgsVtt (cleanLang videoId outputTemplate : String) : List String :=
  ["--write-sub", "--write-auto-sub", "--sub-lang", cleanLang,
   "--sub-format", "vtt", "--skip-download", "-o", outputTemplate, watchUrl videoId]

/-- The subtitle-download argument list of `getSubtitleWithTimestamps`
(format `json3`). -/
def subArgsJson3 (cleanLang videoId outputTemplate : String) : List String :=
  ["--write-sub", "--write-auto-sub", "--sub-lang", cleanLang,
   "--sub-format", "json3", "--skip-download", "-o", outputTemplate, watchUrl videoId]

/-! ## `downloadSubtitle` (lines 141–192) -/

/-- The `-o` output template of `downloadSubtitle`: `cacheDir/videoId_lang`. -/
def vttTemplate (cacheDir videoId lang : String) : String :=
  cacheDir ++ "/" ++ videoId ++ "_" ++ lang

/-- First probed candidate: `outputTemplate.cleanLang.vtt`. -/
def vttCand1 (cacheDir videoId lang : String) : String :=
  vttTemplate cacheDir videoId lang ++ "." ++ cleanLangOf lang ++ ".vtt"

/-- Second probed candidate: `outputTemplate.cleanLang.auto.vtt`. -/
def vttCand2 (cacheDir videoId lang : String) : String :=
  vttTemplate cacheDir videoId lang ++ "." ++ cleanLangOf lang ++ ".auto.vtt"

/-- The cache-write step on a found candidate file: parse the VTT text,
write the parsed transcript to the cache file, delete the VTT file, and
return the text. -/
def vttCacheStep (fs : FS) (cacheFile file : String) : Except YtError String × FS :=
  (.ok (parseVttToText (readFile fs file).str),
   fsErase (writeFile fs cacheFile ⟨parseVttToText (readFile fs file).str, none⟩) file)

/-- The cache-miss path of `downloadSubtitle`: invoke the tool, probe the
plain and `auto`-suffixed candidate files in order, cache and return the
first hit, and throw `subtitleNotFound` when neither exists. -/
def downloadSubtitleFetch (runner : Runner) (settings : Option String)
    (cacheDir videoId lang : String) (fs : FS) : Except YtError String × FS :=
  match execYtdlp runner settings true
      (subArgsVtt (cleanLangOf lang) videoId (vttTemplate cacheDir videoId lang)) fs with
  | (.error e, g) => (.error e, g)
  | (.ok _, g) =>
    if existsSync g (vttCand1 cacheDir videoId lang) then
      vttCacheStep g (cachePath cacheDir videoId lang) (vttCand1 cacheDir videoId lang)
    else if existsSync g (vttCand2 cacheDir videoId lang) then
      vttCacheStep g (cachePath cacheDir videoId lang) (vttCand2 cacheDir videoId lang)
    else (.error .subtitleNotFound, g)

/-- `downloadSubtitle`: answer from the cache when the key is present,
otherwise fetch, parse and cache. -/
def downloadSubtitle (runner : Runner) (settings : Option String)
    (cacheDir videoId lang : String) (fs : FS) : Except YtError String × FS :=
  if existsSync fs (cachePath cacheDir videoId lang) then
    (.ok (readFile fs (cachePath cacheDir videoId lang)).str, fs)
  else downloadSubtitleFetch runner settings cacheDir videoId lang fs

/-! ## `getSubtitleWithTimestamps` (lines 194–279) -/

/-- Processing of a found JSON3 candidate file: `JSON.parse` (which may
throw, leaving the file in place), then entry extraction and deletion. -/
def processJson3File (fs : FS) (file : String) : Except YtError (List SubtitleEntry) × FS :=
  match (readFile fs file).json with
  | none => (.error .jsonParseError, fs)
  | some d => (.ok (json3Entries d), fsErase fs file)

/-- `getSubtitleFromVtt`: the cue-based fallback — fetch in `vtt` format,
probe the two candidates, parse with `parseVttToEntries`, and return `[]`
when neither candidate exists.  It has no local catch. -/
def getSubtitleFromVtt (runner : Runner) (settings : Option String)
    (cacheDir videoId lang : String) (fs : FS) : Except YtError (List SubtitleEntry) × FS :=
  let outputTemplate := cacheDir ++ "/" ++ videoId ++ "_" ++ lang ++ "_vtt"
  let cleanLang := cleanLangOf lang
  match execYtdlp runner settings true (subArgsVtt cleanLang videoId outputTemplate) fs with
  | (.error e, g) => (.error e, g)
  | (.ok _, g) =>
    let f1 := outputTemplate ++ "." ++ cleanLang ++ ".vtt"
    let f2 := outputTemplate ++ "." ++ cleanLang ++ ".auto.vtt"
    if existsSync g f1 then (.ok (parseVttToEntries (readFile g f1).str), fsErase g f1)
    else if existsSync g f2 then (.ok (parseVttToEntries (readFile g f2).str), fsErase g f2)
    else (.ok [], g)

/-- The body of `getSubtitleWithTimestamps` up to (but not including) its
`catch`: errors are explicit `Except` values. -/
def getSubtitleWithTimestampsAux (runner : Runner) (settings : Option String)
    (cacheDir videoId lang : String) (fs : FS) : Except YtError (List SubtitleEntry) × FS :=
  let outputTemplate := cacheDir ++ "/" ++ videoId ++ "_" ++ lang ++ "_ts"
  let cleanLang := cleanLangOf lang
  match execYtdlp runner settings true (subArgsJson3 cleanLang videoId outputTemplate) fs with
  | (.error e, g) => (.error e, g)
  | (.ok _, g) =>
    let f1 := outputTemplate ++ "." ++ cleanLang ++ ".json3"
    let f2 := outputTemplate ++ "." ++ cleanLang ++ ".auto.json3"
    if existsSync g f1 then processJson3File g f1
    else if existsSync g f2 then processJson3File g f2
    else getSubtitleFromVtt runner settings cacheDir videoId lang g

/-- `getSubtitleWithTimestamps`: the whole body runs inside a `try` whose
`catch` turns every failure into the empty entry list. -/
def getSubtitleWithTimestamps (runner : Runner) (settings : Option String)
    (cacheDir videoId lang : String) (fs : FS) : List SubtitleEntry × FS :=
  match getSubtitleWithTimestampsAux runner settings cacheDir videoId lang fs with
  | (.ok es, g) => (es, g)
  | (.error _, g) => ([], g)

/-! ## Helper lemmas -/

theorem data_append (a b : String) : (a ++ b).data = a.data ++ b.data := by
  cases a
  cases b
  rfl

theorem string_data_inj {a b : String} (h : a.data = b.data) : a = b :=
  congrArg String.mk h

/-- The cache file (suffix `.txt`) is never one of the downloaded VTT files
(suffix `.vtt`). -/
theorem ne_append_txt_vtt (x y : String) : x ++ ".txt" ≠ y ++ ".vtt" := by
  intro h
  have h2 := congrArg (fun s => s.data.reverse[1]?) h
  have e1 : (".txt" : String).data = ['.', 't', 'x', 't'] := rfl
  have e2 : (".vtt" : String).data = ['.', 'v', 't', 't'] := rfl
  simp only [data_append, e1, e2, List.reverse_append] at h2
  simp at h2

/-- Nor one of the `auto`-suffixed VTT files. -/
theorem ne_append_txt_autovtt (x y : String) : x ++ ".txt" ≠ y ++ ".auto.vtt" := by
  intro h
  have h2 := congrArg (fun s => s.data.reverse[1]?) h
  have e1 : (".txt" : String).data = ['.', 't', 'x', 't'] := rfl
  have e2 : (".auto.vtt" : String).data = ['.', 'a', 'u', 't', 'o', '.', 'v', 't', 't'] := rfl
  simp only [data_append, e1, e2, List.reverse_append] at h2
  simp at h2

theorem cachePath_ne_vttCand1 (cacheDir videoId lang : String) :
    cachePath cacheDir videoId lang ≠ vttCand1 cacheDir videoId lang :=
  ne_append_txt_vtt _ _

theorem cachePath_ne_vttCand2 (cacheDir videoId lang : String) :
    cachePath cacheDir videoId lang ≠ vttCand2 cacheDir videoId lang :=
  ne_append_txt_autovtt _ _

theorem fsLookup_fsErase (fs : FS) (p q : String) :
    fsLookup (fsErase fs p) q = if q = p then none else fsLookup fs q := by
  induction fs with
  | nil => simp [fsErase, fsLookup]
  | cons kv rest ih =>
    obtain ⟨k, v⟩ := kv
    by_cases h1 : k = p
    · by_cases h2 : k = q <;> simp [fsErase, fsLookup, h1, h2, ih] <;> simp [h1] at h2 ⊢ <;>
        simp [h2]
    · by_cases h2 : k = q
      · subst h2
        simp [fsErase, fsLookup, h1, Ne.symm h1]
      · simp [fsErase, fsLookup, h1, h2, ih]

theorem fsLookup_writeFile_self (fs : FS) (p : String) (d : FileData) :
    fsLookup (writeFile fs p d) p = some d := by
  simp [writeFile, fsLookup]

theorem fsLookup_writeFile_ne (fs : FS) (p q : String) (d : FileData) (h : q ≠ p) :
    fsLookup (writeFile fs p d) q = fsLookup fs q := by
  simp [writeFile, fsLookup, Ne.symm h, fsLookup_fsErase, h]

/-- `execYtdlp` leaves the filesystem exactly as the subprocess left it. -/
theorem execYtdlp_fs (runner : Runner) (settings : Option String) (uc : Bool)
    (args : List String) (fs : FS) :
    (execYtdlp runner settings uc args fs).2 = execResFs (runner (finalArgs settings uc args) fs) := by
  unfold execYtdlp
  cases runner (finalArgs settings uc args) fs with
  | closed code out err g => by_cases h : code = 0 <;> simp [execResFs, h]
  | failed msg g => simp [execResFs]

/-! ## Claims -/

/-- C1.  `getSubtitleWithTimestamps` never raises: for every subprocess
behaviour and filesystem state it returns a (possibly empty) entry list;
its result is the body's entry list when the body succeeds and `[]` when
the body fails anywhere (subprocess error, missing file, `JSON.parse`
error, or a failure inside the cue-based fallback — all of which surface
as `.error` values of `getSubtitleWithTimestampsAux`).  In particular a
runner that always fails yields `([], fs)`. -/
theorem getSubtitleWithTimestamps_never_raises (runner : Runner) (settings : Option String)
    (cacheDir videoId lang : String) (fs : FS) :
    (getSubtitleWithTimestamps runner settings cacheDir videoId lang fs).1 =
      ((getSubtitleWithTimestampsAux runner settings cacheDir videoId lang fs).1.toOption.getD []) ∧
    ∀ msg, getSubtitleWithTimestamps (fun _ g => .failed msg g) settings cacheDir videoId lang fs
      = ([], fs) := by
  constructor
  · rcases h : getSubtitleWithTimestampsAux runner settings cacheDir videoId lang fs with ⟨r, g⟩
    cases r <;> simp [getSubtitleWithTimestamps, h, Except.toOption]
  · intro msg
    rfl

/-- C5.  The two-cue scenario payload parses to exactly the two entries
`{1.0, 2.5, "Hello"}` and `{2.5, 4.0, "Hello"}` (exact duplicate texts are
kept by the timed-entries parser), and a trailing block with no following
blank line is still emitted. -/
theorem parseVttToEntries_scenario :
    parseVttToEntries
        "WEBVTT\n\n00:00:01.000 --> 00:00:02.500\nHello\n\n00:00:02.500 --> 00:00:04.000\nHello\n" =
      [⟨1, 5/2, "Hello"⟩, ⟨5/2, 4, "Hello"⟩] ∧
    parseVttToEntries "WEBVTT\n\n00:00:01.000 --> 00:00:02.500\nHello" = [⟨1, 5/2, "Hello"⟩] := by
  constructor
  · show (vttEntriesLoop _ 0 0 []).map msEntryToRat = _
    rw [show vttEntriesLoop (splitLines
        "WEBVTT\n\n00:00:01.000 --> 00:00:02.500\nHello\n\n00:00:02.500 --> 00:00:04.000\nHello\n".toList)
        0 0 [] = [⟨1000, 2500, "Hello"⟩, ⟨2500, 4000, "Hello"⟩] from by decide]
    simp [msEntryToRat]
    norm_num
  · show (vttEntriesLoop _ 0 0 []).map msEntryToRat = _
    rw [show vttEntriesLoop (splitLines
        "WEBVTT\n\n00:00:01.000 --> 00:00:02.500\nHello".toList)
        0 0 [] = [⟨1000, 2500, "Hello"⟩] from by decide]
    simp [msEntryToRat]
    norm_num

/-- C7.  The JSON3 extraction agrees with the spec's description: an event
with no segment list, or whose trimmed segment concatenation is empty,
produces no entry; every other event produces exactly one entry with
`start = startMs/1000`, `end = (startMs + durationMs)/1000` (absent fields
defaulting to 0) and the trimmed no-separator concatenation as text. -/
theorem json3Entries_spec (d : Json3Doc) :
    json3Entries d = json3SpecEntries (d.events.getD []) := by
  obtain ⟨evs⟩ := d
  cases evs with
  | none => rfl
  | some l =>
    show json3EntriesLoop l = json3SpecEntries l
    induction l with
    | nil => rfl
    | cons e rest ih =>
      cases hs : e.segs with
      | none =>
        simp only [json3EntriesLoop, json3SpecEntries, List.filterMap_cons, hs]
        exact ih
      | some segs =>
        by_cases ht : (String.join (segs.map segText)).trim = ""
        · simp only [json3EntriesLoop, json3SpecEntries, List.filterMap_cons, hs,
            show (fun (s : Json3Seg) => s.utf8.getD "") = segText from rfl]
          rw [if_neg (not_not_intro ht), if_pos ht]
          exact ih
        · simp only [json3EntriesLoop, json3SpecEntries, List.filterMap_cons, hs,
            show (fun (s : Json3Seg) => s.utf8.getD "") = segText from rfl]
          rw [if_pos ht, if_neg ht]
          refine congrArg₂ List.cons ?_ ih
          refine congrArg₂ (SubtitleEntry.mk _) ?_ rfl
          push_cast
          ring

/-- C8.  The process runner resolves with the accumulated stdout exactly
when the exit code is 0; a non-zero exit fails with `extractionFailed`
carrying the exit code and the captured stderr; a process that cannot be
started fails with the distinct `toolUnavailable` error. -/
theorem execYtdlp_contract (runner : Runner) (settings : Option String) (uc : Bool)
    (args : List String) (fs : FS) :
    (∀ out err g, runner (finalArgs settings uc args) fs = .closed 0 out err g →
      execYtdlp runner settings uc args fs = (.ok out, g)) ∧
    (∀ code out err g, runner (finalArgs settings uc args) fs = .closed code out err g →
      code ≠ 0 →
      execYtdlp runner settings uc args fs = (.error (.extractionFailed code err), g)) ∧
    (∀ msg g, runner (finalArgs settings uc args) fs = .failed msg g →
      execYtdlp runner settings uc args fs = (.error (.toolUnavailable msg), g)) ∧
    (∀ out g, execYtdlp runner settings uc args fs = (.ok out, g) →
      ∃ err, runner (finalArgs settings uc args) fs = .closed 0 out err g) := by
  refine ⟨?_, ?_, ?_, ?_⟩
  · intro out err g h
    simp [execYtdlp, h]
  · intro code out err g h hc
    simp [execYtdlp, h, hc]
  · intro msg g h
    simp [execYtdlp, h]
  · intro out g h
    unfold execYtdlp at h
    revert h
    cases runner (finalArgs settings uc args) fs with
    | closed code sout serr g2 =>
      intro h
      replace h : (if code = 0 then ((Except.ok sout : Except YtError String), g2)
          else (Except.error (YtError.extractionFailed code serr), g2)) = (Except.ok out, g) := h
      by_cases hc : code = 0
      · rw [if_pos hc] at h
        injection h with hA hB
        injection hA with hA2
        subst hA2
        subst hB
        subst hc
        exact ⟨serr, rfl⟩
      · rw [if_neg hc] at h
        exact absurd h (by simp)
    | failed msg g2 =>
      intro h
      replace h : ((Except.error (YtError.toolUnavailable msg) : Except YtError String), g2)
          = (Except.ok out, g) := h
      exact absurd h (by simp)

/-- Witness for C8: each branch of the contract at a concrete runner. -/
theorem execYtdlp_contract_witness :
    execYtdlp (fun _ g => .closed 0 "TRANSCRIPT" "" g) none true [] [] = (.ok "TRANSCRIPT", []) ∧
    execYtdlp (fun _ g => .closed 2 "" "boom" g) none true [] [] =
      (.error (.extractionFailed 2 "boom"), []) ∧
    execYtdlp (fun _ g => .failed "spawn ENOENT" g) none true [] [] =
      (.error (.toolUnavailable "spawn ENOENT"), []) :=
  ⟨(execYtdlp_contract (fun _ g => .closed 0 "TRANSCRIPT" "" g) none true [] []).1
      "TRANSCRIPT" "" [] rfl,
   (execYtdlp_contract (fun _ g => .closed 2 "" "boom" g) none true [] []).2.1
      2 "" "boom" [] rfl (by decide),
   (execYtdlp_contract (fun _ g => .failed "spawn ENOENT" g) none true [] []).2.2.1
      "spawn ENOENT" [] rfl⟩

/-- A call that finds the cache key present answers from the cache alone:
the runner is irrelevant and the filesystem is untouched. -/
theorem downloadSubtitle_cache_hit (runner2 : Runner) (settings : Option String)
    (cacheDir videoId lang : String) (g : FS) (t : String)
    (hex : existsSync g (cachePath cacheDir videoId lang) = true)
    (hstr : (readFile g (cachePath cacheDir videoId lang)).str = t) :
    downloadSubtitle runner2 settings cacheDir videoId lang g = (.ok t, g) := by
  unfold downloadSubtitle
  rw [if_pos hex, hstr]

/-- After a successful cache-write step the cache key holds the parsed
text (the deleted candidate file is a distinct path). -/
theorem vttCacheStep_props (g1 : FS) (cp file : String) (t : String) (g : FS)
    (hne : cp ≠ file)
    (h : vttCacheStep g1 cp file = (.ok t, g)) :
    existsSync g cp = true ∧ (readFile g cp).str = t := by
  unfold vttCacheStep at h
  injection h with hA hB
  injection hA with hA'
  subst hA'
  subst hB
  constructor
  · simp [existsSync, fsLookup_fsErase, hne, fsLookup_writeFile_self]
  · simp [readFile, fsLookup_fsErase, hne, fsLookup_writeFile_self]

/-- C2.  A successful `downloadSubtitle` call leaves the parsed transcript
in the cache under `videoId_lang`, and a second call for the same key
returns byte-identical text and an unchanged filesystem from the cache
alone — for an arbitrary second runner, so no subprocess invocation can be
observed. -/
theorem downloadSubtitle_cache_roundtrip (runner : Runner) (settings : Option String)
    (cacheDir videoId lang : String) (fs : FS) (t : String) (g : FS)
    (h : downloadSubtitle runner settings cacheDir videoId lang fs = (.ok t, g)) :
    existsSync g (cachePath cacheDir videoId lang) = true ∧
    (readFile g (cachePath cacheDir videoId lang)).str = t ∧
    ∀ runner2, downloadSubtitle runner2 settings cacheDir videoId lang g = (.ok t, g) := by
  by_cases hc : existsSync fs (cachePath cacheDir videoId lang) = true
  · unfold downloadSubtitle at h
    rw [if_pos hc] at h
    injection h with hA hB
    injection hA with hA'
    subst hA'
    subst hB
    exact ⟨hc, rfl, fun r2 => downloadSubtitle_cache_hit r2 settings cacheDir videoId lang fs _ hc rfl⟩
  · unfold downloadSubtitle at h
    rw [if_neg hc] at h
    unfold downloadSubtitleFetch at h
    rcases hex : execYtdlp runner settings true
        (subArgsVtt (cleanLangOf lang) videoId (vttTemplate cacheDir videoId lang)) fs with ⟨res, g1⟩
    rw [hex] at h
    cases res with
    | error e =>
      replace h : ((Except.error e : Except YtError String), g1) = (.ok t, g) := h
      exact absurd h (by simp)
    | ok s =>
      replace h : (if existsSync g1 (vttCand1 cacheDir videoId lang) = true then
            vttCacheStep g1 (cachePath cacheDir videoId lang) (vttCand1 cacheDir videoId lang)
          else if existsSync g1 (vttCand2 cacheDir videoId lang) = true then
            vttCacheStep g1 (cachePath cacheDir videoId lang) (vttCand2 cacheDir videoId lang)
          else (.error .subtitleNotFound, g1)) = (.ok t, g) := h
      by_cases h1 : existsSync g1 (vttCand1 cacheDir videoId lang) = true
      · rw [if_pos h1] at h
        obtain ⟨A, B⟩ := vttCacheStep_props g1 _ _ t g (cachePath_ne_vttCand1 cacheDir videoId lang) h
        exact ⟨A, B, fun r2 => downloadSubtitle_cache_hit r2 settings cacheDir videoId lang g t A B⟩
      · rw [if_neg h1] at h
        by_cases h2 : existsSync g1 (vttCand2 cacheDir videoId lang) = true
        · rw [if_pos h2] at h
          obtain ⟨A, B⟩ := vttCacheStep_props g1 _ _ t g (cachePath_ne_vttCand2 cacheDir videoId lang) h
          exact ⟨A, B, fun r2 => downloadSubtitle_cache_hit r2 settings cacheDir videoId lang g t A B⟩
        · rw [if_neg h2] at h
          exact absurd h (by simp)

/-- Witness for C2: a first call (with a runner that produces a VTT file
containing `Hello`) populates the cache; the instantiated conclusion shows
the second call — with a runner that always fails — still returns the same
text and filesystem. -/
theorem downloadSubtitle_cache_roundtrip_witness :
    downloadSubtitle (fun _ g => .failed "no tool" g) none "d" "v" "en"
        [("d/v_en.txt", ⟨"Hello", none⟩)] =
      (.ok "Hello", [("d/v_en.txt", ⟨"Hello", none⟩)]) :=
  (downloadSubtitle_cache_roundtrip
      (fun _ g => ExecResult.closed 0 "" "" (writeFile g (vttCand1 "d" "v" "en") ⟨"Hello", none⟩))
      none "d" "v" "en" [] "Hello" [("d/v_en.txt", ⟨"Hello", none⟩)] rfl).2.2
    (fun _ g => .failed "no tool" g)

/-- C9.  A failed `downloadSubtitle` call leaves the cache unchanged for
its key (provided the external tool itself does not write that exact cache
path): the key was absent before the call — otherwise the call would have
succeeded from the cache — and is still absent after it, so a subsequent
call for the same key takes the fetch path (and hence invokes the
subprocess) again. -/
theorem downloadSubtitle_failure_no_cache (runner : Runner) (settings : Option String)
    (cacheDir videoId lang : String) (fs : FS) (e : YtError) (g : FS)
    (hr : ∀ args h2, fsLookup (execResFs (runner args h2)) (cachePath cacheDir videoId lang)
        = fsLookup h2 (cachePath cacheDir videoId lang))
    (h : downloadSubtitle runner settings cacheDir videoId lang fs = (.error e, g)) :
    fsLookup fs (cachePath cacheDir videoId lang) = none ∧
    fsLookup g (cachePath cacheDir videoId lang) = none ∧
    ∀ runner2, downloadSubtitle runner2 settings cacheDir videoId lang g
      = downloadSubtitleFetch runner2 settings cacheDir videoId lang g := by
  by_cases hc : existsSync fs (cachePath cacheDir videoId lang) = true
  · unfold downloadSubtitle at h
    rw [if_pos hc] at h
    exact absurd h (by simp)
  · have hlf : fsLookup fs (cachePath cacheDir videoId lang) = none := by
      cases hL : fsLookup fs (cachePath cacheDir videoId lang) with
      | none => rfl
      | some v => exact absurd (by simp [existsSync, hL]) hc
    unfold downloadSubtitle at h
    rw [if_neg hc] at h
    unfold downloadSubtitleFetch at h
    rcases hex : execYtdlp runner settings true
        (subArgsVtt (cleanLangOf lang) videoId (vttTemplate cacheDir videoId lang)) fs with ⟨res, g1⟩
    rw [hex] at h
    have hg1 : fsLookup g1 (cachePath cacheDir videoId lang)
        = fsLookup fs (cachePath cacheDir videoId lang) := by
      have hfs := execYtdlp_fs runner settings true
        (subArgsVtt (cleanLangOf lang) videoId (vttTemplate cacheDir videoId lang)) fs
      rw [hex] at hfs
      rw [show g1 = execResFs (runner (finalArgs settings true
          (subArgsVtt (cleanLangOf lang) videoId (vttTemplate cacheDir videoId lang))) fs)
        from by simpa using hfs]
      exact hr _ _
    cases res with
    | error e2 =>
      replace h : ((Except.error e2 : Except YtError String), g1) = (.error e, g) := h
      injection h with hA hB
      subst hB
      refine ⟨hlf, by rw [hg1]; exact hlf, ?_⟩
      intro runner2
      unfold downloadSubtitle
      rw [if_neg (by simp [existsSync, hg1, hlf])]
    | ok s =>
      replace h : (if existsSync g1 (vttCand1 cacheDir videoId lang) = true then
            vttCacheStep g1 (cachePath cacheDir videoId lang) (vttCand1 cacheDir videoId lang)
          else if existsSync g1 (vttCand2 cacheDir videoId lang) = true then
            vttCacheStep g1 (cachePath cacheDir videoId lang) (vttCand2 cacheDir videoId lang)
          else (.error .subtitleNotFound, g1)) = (.error e, g) := h
      by_cases h1 : existsSync g1 (vttCand1 cacheDir videoId lang) = true
      · rw [if_pos h1] at h
        simp [vttCacheStep] at h
      · rw [if_neg h1] at h
        by_cases h2 : existsSync g1 (vttCand2 cacheDir videoId lang) = true
        · rw [if_pos h2] at h
          simp [vttCacheStep] at h
        · rw [if_neg h2] at h
          injection h with hA hB
          subst hB
          refine ⟨hlf, by rw [hg1]; exact hlf, ?_⟩
          intro runner2
          unfold downloadSubtitle
          rw [if_neg (by simp [existsSync, hg1, hlf])]

/-- Witness for C9: a failing first call on an empty filesystem, then the
instantiated conclusion — the second call takes the fetch path. -/
theorem downloadSubtitle_failure_no_cache_witness :
    downloadSubtitle (fun _ g => .failed "x" g) none "d" "v" "en" []
      = downloadSubtitleFetch (fun _ g => .failed "x" g) none "d" "v" "en" [] :=
  (downloadSubtitle_failure_no_cache (fun _ g => .failed "no tool" g) none "d" "v" "en" []
      (.toolUnavailable "no tool") [] (fun _ _ => rfl) rfl).2.2
    (fun _ g => .failed "x" g)

/-! ## Plain-text parser properties (C3, C10) -/

/-- The head of the loop's output, when it exists, differs from the
incoming `lastText` state. -/
theorem vttTextLoop_head_ne (lines : List (List Char)) :
    ∀ lastText l, (vttTextLoop lines lastText).head? = some l → l ≠ lastText := by
  induction lines with
  | nil => intro lastText l h; simp [vttTextLoop] at h
  | cons line rest ih =>
    intro lastText l h
    unfold vttTextLoop at h
    by_cases hs : vttSkipText (jsTrim line) = true
    · rw [if_pos hs] at h
      exact ih lastText l h
    · rw [if_neg hs] at h
      by_cases hacc : cleanLine (jsTrim line) ≠ [] ∧ cleanLine (jsTrim line) ≠ lastText
      · rw [if_pos hacc] at h
        simp at h
        rw [← h]
        exact hacc.2
      · rw [if_neg hacc] at h
        exact ih lastText l h

/-- Adjacent entries of the plain-text output always differ: an accepted
line becomes the new comparison state, so an immediately repeated line can
never be emitted twice in a row. -/
theorem vttTextLoop_chain (lines : List (List Char)) :
    ∀ lastText, List.Chain' (fun x y => x ≠ y) (vttTextLoop lines lastText) := by
  induction lines with
  | nil => intro lastText; simp [vttTextLoop]
  | cons line rest ih =>
    intro lastText
    unfold vttTextLoop
    by_cases hs : vttSkipText (jsTrim line) = true
    · rw [if_pos hs]
      exact ih lastText
    · rw [if_neg hs]
      by_cases hacc : cleanLine (jsTrim line) ≠ [] ∧ cleanLine (jsTrim line) ≠ lastText
      · rw [if_pos hacc]
        rw [List.chain'_cons']
        refine ⟨?_, ih _⟩
        intro y hy
        exact Ne.symm (vttTextLoop_head_ne rest _ y (Option.mem_def.mp hy))
      · rw [if_neg hacc]
        exact ih lastText

/-- Every line the plain-text loop emits is nonempty. -/
theorem vttTextLoop_mem_ne_nil (lines : List (List Char)) :
    ∀ lastText l, l ∈ vttTextLoop lines lastText → l ≠ [] := by
  induction lines with
  | nil => intro lastText l h; simp [vttTextLoop] at h
  | cons line rest ih =>
    intro lastText l h
    unfold vttTextLoop at h
    by_cases hs : vttSkipText (jsTrim line) = true
    · rw [if_pos hs] at h
      exact ih lastText l h
    · rw [if_neg hs] at h
      by_cases hacc : cleanLine (jsTrim line) ≠ [] ∧ cleanLine (jsTrim line) ≠ lastText
      · rw [if_pos hacc] at h
        rcases List.mem_cons.mp h with h1 | h2
        · rw [h1]; exact hacc.1
        · exact ih _ l h2
      · rw [if_neg hacc] at h
        exact ih lastText l h

/-- C3.  The plain-text parser appends a cleaned line only when it differs
from the immediately preceding accepted line: two adjacent identical plain
lines are emitted once; two identical lines separated by a distinct line
are both kept; adjacent output entries always differ; and the two-cue
`Hello`/`Hello` scenario payload flattens to the single line `"Hello"`. -/
theorem parseVttToText_dedup (a b : List Char)
    (ha1 : jsTrim a = a) (ha2 : vttSkipText a = false) (ha3 : cleanLine a = a) (ha4 : a ≠ [])
    (hb1 : jsTrim b = b) (hb2 : vttSkipText b = false) (hb3 : cleanLine b = b) (hb4 : b ≠ [])
    (hab : a ≠ b) :
    vttTextLoop [a, a] [] = [a] ∧
    vttTextLoop [a, b, a] [] = [a, b, a] ∧
    (∀ lines lastText, List.Chain' (fun x y => x ≠ y) (vttTextLoop lines lastText)) ∧
    parseVttToText
        "WEBVTT\n\n00:00:01.000 --> 00:00:02.500\nHello\n\n00:00:02.500 --> 00:00:04.000\nHello\n" =
      "Hello" := by
  refine ⟨?_, ?_, fun lines lastText => vttTextLoop_chain lines lastText, by decide⟩
  · simp [vttTextLoop, ha1, ha2, ha3, ha4]
  · simp [vttTextLoop, ha1, ha2, ha3, ha4, hb1, hb2, hb3, hb4, hab, Ne.symm hab]

/-- Witness for C3: the scenario conjunct at `a = "Hello"`, `b = "World"`. -/
theorem parseVttToText_dedup_witness :
    parseVttToText
        "WEBVTT\n\n00:00:01.000 --> 00:00:02.500\nHello\n\n00:00:02.500 --> 00:00:04.000\nHello\n" =
      "Hello" :=
  (parseVttToText_dedup "Hello".toList "World".toList (by decide) (by decide) (by decide)
    (by decide) (by decide) (by decide) (by decide) (by decide) (by decide)).2.2.2

/-- C10.  Every line of the plain-text output is nonempty: a non-skipped
line whose cleaned text is empty (for example a pure markup line) is
dropped without updating the duplicate-comparison state, so two identical
lines separated only by such lines still collapse to one. -/
theorem parseVttToText_no_empty_lines (a t : List Char)
    (ha1 : jsTrim a = a) (ha2 : vttSkipText a = false) (ha3 : cleanLine a = a) (ha4 : a ≠ [])
    (ht1 : jsTrim t = t) (ht2 : vttSkipText t = false) (ht3 : cleanLine t = []) :
    (∀ lines lastText l, l ∈ vttTextLoop lines lastText → l ≠ []) ∧
    vttTextLoop [a, t, a] [] = [a] := by
  refine ⟨fun lines lastText l h => vttTextLoop_mem_ne_nil lines lastText l h, ?_⟩
  simp [vttTextLoop, ha1, ha2, ha3, ha4, ht1, ht2, ht3]

/-- Witness for C10: the collapse conjunct at `a = "Hello"`, `t = "<i>"`. -/
theorem parseVttToText_no_empty_lines_witness :
    vttTextLoop ["Hello".toList, "<i>".toList, "Hello".toList] [] = ["Hello".toList] :=
  (parseVttToText_no_empty_lines "Hello".toList "<i>".toList (by decide) (by decide)
    (by decide) (by decide) (by decide) (by decide) (by decide)).2

/-! ## Order properties of the timestamped parser (C6) -/

/-- The (startMs, endMs) pairs of the payload's well-formed timestamp range
lines, in file order. -/
def tsPairsMs (lines : List (List Char)) : List (Nat × Nat) :=
  lines.filterMap fun line => (findTs (jsTrim line)).map fun r => (tsStartMs r, tsEndMs r)

/-- Loop invariant: when the current block bounds satisfy `cs ≤ ce`, every
remaining range line has `end ≥ start`, every remaining start is at least
`cs`, and the remaining starts are mutually ordered, then every emitted
entry satisfies `endMs ≥ startMs ≥ cs` and the emitted starts are mutually
ordered. -/
theorem vttEntriesLoop_inv (lines : List (List Char)) :
    ∀ (cs ce : Nat) (ct : List (List Char)),
    cs ≤ ce →
    (∀ p ∈ tsPairsMs lines, p.1 ≤ p.2) →
    (∀ p ∈ tsPairsMs lines, cs ≤ p.1) →
    List.Pairwise (fun p q => p.1 ≤ q.1) (tsPairsMs lines) →
    (∀ e ∈ vttEntriesLoop lines cs ce ct, e.startMs ≤ e.endMs ∧ cs ≤ e.startMs) ∧
    List.Pairwise (fun a b => a.startMs ≤ b.startMs) (vttEntriesLoop lines cs ce ct) := by
  induction lines with
  | nil =>
    intro cs ce ct h0 hwf hge hpw
    constructor
    · intro e he
      unfold vttEntriesLoop at he
      by_cases hct : ct = []
      · rw [if_pos hct] at he
        simp at he
      · rw [if_neg hct] at he
        rcases List.mem_singleton.mp he with rfl
        exact ⟨h0, le_refl _⟩
    · unfold vttEntriesLoop
      by_cases hct : ct = []
      · rw [if_pos hct]
        simp
      · rw [if_neg hct]
        simp
  | cons line rest ih =>
    intro cs ce ct h0 hwf hge hpw
    have hts : tsPairsMs (line :: rest)
        = ((findTs (jsTrim line)).map fun r => (tsStartMs r, tsEndMs r)).toList ++ tsPairsMs rest := by
      simp [tsPairsMs, List.filterMap_cons]
      cases findTs (jsTrim line) <;> simp
    cases hf : findTs (jsTrim line) with
    | some r =>
      rw [hf] at hts
      simp at hts
      rw [hts] at hwf hge hpw
      have hwf1 : tsStartMs r ≤ tsEndMs r := hwf _ (List.mem_cons_self _ _)
      have hge1 : cs ≤ tsStartMs r := hge _ (List.mem_cons_self _ _)
      rcases List.pairwise_cons.mp hpw with ⟨hhead, htail⟩
      obtain ⟨ihA, ihB⟩ := ih (tsStartMs r) (tsEndMs r) [] hwf1
        (fun p hp => hwf p (List.mem_cons_of_mem _ hp))
        (fun p hp => hhead p hp)
        htail
      have hloop : vttEntriesLoop (line :: rest) cs ce ct
          = (if ct = [] then [] else [mkVttEntryMs cs ce ct])
            ++ vttEntriesLoop rest (tsStartMs r) (tsEndMs r) [] := by
        simp only [vttEntriesLoop, hf]
      rw [hloop]
      constructor
      · intro e he
        rcases List.mem_append.mp he with h1 | h2
        · by_cases hct : ct = []
          · rw [if_pos hct] at h1
            simp at h1
          · rw [if_neg hct] at h1
            rcases List.mem_singleton.mp h1 with rfl
            exact ⟨h0, le_refl _⟩
        · obtain ⟨e1, e2⟩ := ihA e h2
          exact ⟨e1, le_trans hge1 e2⟩
      · rw [List.pairwise_append]
        refine ⟨?_, ihB, ?_⟩
        · by_cases hct : ct = []
          · rw [if_pos hct]
            simp
          · rw [if_neg hct]
            simp
        · intro x hx y hy
          by_cases hct : ct = []
          · rw [if_pos hct] at hx
            simp at hx
          · rw [if_neg hct] at hx
            rcases List.mem_singleton.mp hx with rfl
            exact le_trans hge1 (ihA y hy).2
    | none =>
      rw [hf] at hts
      simp at hts
      rw [hts] at hwf hge hpw
      have hloop : ∀ ct2, vttEntriesLoop (line :: rest) cs ce ct2
          = if vttSkipEntries (jsTrim line) = true then vttEntriesLoop rest cs ce ct2
            else vttEntriesLoop rest cs ce (ct2 ++ [jsTrim line]) := by
        intro ct2
        simp only [vttEntriesLoop, hf]
      rw [hloop]
      by_cases hsk : vttSkipEntries (jsTrim line) = true
      · rw [if_pos hsk]
        exact ih cs ce ct h0 hwf hge hpw
      · rw [if_neg hsk]
        exact ih cs ce (ct ++ [jsTrim line]) h0 hwf hge hpw

/-- C6.  For a payload whose well-formed range lines are ordered — every
range has `end ≥ start` and the ranges' starts are mutually non-decreasing
in file order — `parseVttToEntries` emits entries with `end ≥ start`
throughout and mutually non-decreasing `start` values; and the parsed
offsets are exactly the source formula
`hours*3600 + minutes*60 + seconds + millis/1000`. -/
theorem parseVttToEntries_ordered (vtt : String)
    (hwf : ∀ p ∈ tsPairsMs (splitLines vtt.toList), p.1 ≤ p.2)
    (hpw : List.Pairwise (fun p q => p.1 ≤ q.1) (tsPairsMs (splitLines vtt.toList))) :
    (∀ e ∈ parseVttToEntries vtt, e.start ≤ e.«end») ∧
    List.Pairwise (fun a b => a.start ≤ b.start) (parseVttToEntries vtt) ∧
    (∀ r : TsRaw, (tsStartMs r : ℚ) / 1000
      = (r.h1 : ℚ) * 3600 + (r.m1 : ℚ) * 60 + (r.s1 : ℚ) + (r.ms1 : ℚ) / 1000) := by
  obtain ⟨invA, invB⟩ := vttEntriesLoop_inv (splitLines vtt.toList) 0 0 [] (le_refl 0) hwf
    (fun p _ => Nat.zero_le _) hpw
  have hdiv : ∀ x y : Nat, x ≤ y → (x : ℚ) / 1000 ≤ (y : ℚ) / 1000 := by
    intro x y hxy
    have : (x : ℚ) ≤ (y : ℚ) := by exact_mod_cast hxy
    linarith
  refine ⟨?_, ?_, tsStartMs_toRat⟩
  · intro e he
    unfold parseVttToEntries at he
    rcases List.mem_map.mp he with ⟨e2, he2, rfl⟩
    exact hdiv _ _ (invA e2 he2).1
  · unfold parseVttToEntries
    rw [List.pairwise_map]
    exact invB.imp fun hab => hdiv _ _ hab

/-- Witness for C6: the formula conjunct of the instantiated conclusion at
the scenario payload (whose range lines are well-formed and ordered). -/
theorem parseVttToEntries_ordered_witness :
    (tsStartMs ⟨0, 0, 1, 0, 0, 0, 2, 500⟩ : ℚ) / 1000
      = (0 : ℚ) * 3600 + (0 : ℚ) * 60 + (1 : ℚ) + (0 : ℚ) / 1000 :=
  (parseVttToEntries_ordered
    "WEBVTT\n\n00:00:01.000 --> 00:00:02.500\nHello\n\n00:00:02.500 --> 00:00:04.000\nHello\n"
    (by decide) (by decide)).2.2 ⟨0, 0, 1, 0, 0, 0, 2, 500⟩

/-! ## Track discovery properties (C4) -/

/-- Whether a language code already carries the `" (auto)"` marker. -/
def hasAutoSuffix (s : String) : Bool := " (auto)".toList.isSuffixOf s.toList

theorem isPrefixOf_append_self : ∀ (l x : List Char), l.isPrefixOf (l ++ x) = true := by
  intro l x
  induction l with
  | nil => simp [List.isPrefixOf]
  | cons c rest ih => simp [List.isPrefixOf, ih]

theorem isSuffixOf_append_self (l x : List Char) : l.isSuffixOf (x ++ l) = true := by
  simp [List.isSuffixOf, List.reverse_append, isPrefixOf_append_self]

theorem ne_auto_append_of_no_suffix {a : String} (h : hasAutoSuffix a = false) (b : String) :
    a ≠ b ++ " (auto)" := by
  intro he
  rw [he] at h
  unfold hasAutoSuffix at h
  rw [show (b ++ " (auto)").toList = b.toList ++ (" (auto)" : String).toList from by
    simp [String.toList, data_append]] at h
  rw [isSuffixOf_append_self] at h
  exact Bool.noConfusion h

theorem append_auto_inj {a b : String} (h : a ++ " (auto)" = b ++ " (auto)") : a = b := by
  have hd : a.data ++ (" (auto)" : String).data = b.data ++ (" (auto)" : String).data := by
    rw [← data_append, ← data_append, h]
  exact string_data_inj (List.append_inj' hd rfl).1

theorem find?_lang_none_of {acc : List SubtitleTrack} {c : String}
    (h : ∀ s ∈ acc, s.lang ≠ c) : acc.find? (fun x => x.lang == c) = none := by
  induction acc with
  | nil => rfl
  | cons a rest ih =>
    rw [List.find?_cons_of_neg]
    · exact ih fun s hs => h s (List.mem_cons_of_mem _ hs)
    · simp [h a (List.mem_cons_self _ _)]

theorem manualTracks_mem {l : List (String × List TrackRaw)} {x : SubtitleTrack}
    (hx : x ∈ manualTracks l) :
    ∃ p ∈ l, ∃ t, pickTrack p.2 = some t ∧ x = ⟨p.1, jsOr t.name p.1, some t.url, none⟩ := by
  induction l with
  | nil => simp [manualTracks] at hx
  | cons p rest ih =>
    obtain ⟨lang, tl⟩ := p
    cases hp : pickTrack tl with
    | some t =>
      rw [show manualTracks ((lang, tl) :: rest)
          = ⟨lang, jsOr t.name lang, some t.url, none⟩ :: manualTracks rest from by
        simp only [manualTracks, hp]] at hx
      rcases List.mem_cons.mp hx with h1 | h2
      · exact ⟨(lang, tl), List.mem_cons_self _ _, t, hp, h1⟩
      · rcases ih h2 with ⟨q, hq, t2, ht2, hx2⟩
        exact ⟨q, List.mem_cons_of_mem _ hq, t2, ht2, hx2⟩
    | none =>
      rw [show manualTracks ((lang, tl) :: rest) = manualTracks rest from by
        simp only [manualTracks, hp]] at hx
      rcases ih hx with ⟨q, hq, t2, ht2, hx2⟩
      exact ⟨q, List.mem_cons_of_mem _ hq, t2, ht2, hx2⟩

theorem manualTracks_mem_of {l : List (String × List TrackRaw)} {c : String}
    {tl : List TrackRaw} {t : TrackRaw} (h : (c, tl) ∈ l) (hp : pickTrack tl = some t) :
    (⟨c, jsOr t.name c, some t.url, none⟩ : SubtitleTrack) ∈ manualTracks l := by
  induction l with
  | nil => simp at h
  | cons q rest ih =>
    obtain ⟨lang, tl2⟩ := q
    rcases List.mem_cons.mp h with h1 | h2
    · cases h1
      rw [show manualTracks ((c, tl) :: rest)
          = ⟨c, jsOr t.name c, some t.url, none⟩ :: manualTracks rest from by
        simp only [manualTracks, hp]]
      exact List.mem_cons_self _ _
    · cases hq : pickTrack tl2 with
      | some t2 =>
        rw [show manualTracks ((lang, tl2) :: rest)
            = ⟨lang, jsOr t2.name lang, some t2.url, none⟩ :: manualTracks rest from by
          simp only [manualTracks, hq]]
        exact List.mem_cons_of_mem _ (ih h2)
      | none =>
        rw [show manualTracks ((lang, tl2) :: rest) = manualTracks rest from by
          simp only [manualTracks, hq]]
        exact ih h2

theorem manualTracks_pairwise {l : List (String × List TrackRaw)}
    (hm : List.Pairwise (fun p q => p.1 ≠ q.1) l) :
    List.Pairwise (fun x y : SubtitleTrack => x.lang ≠ y.lang) (manualTracks l) := by
  induction l with
  | nil => simp [manualTracks]
  | cons p rest ih =>
    obtain ⟨lang, tl⟩ := p
    rcases List.pairwise_cons.mp hm with ⟨hhead, htail⟩
    cases hp : pickTrack tl with
    | none =>
      rw [show manualTracks ((lang, tl) :: rest) = manualTracks rest from by
        simp only [manualTracks, hp]]
      exact ih htail
    | some t =>
      rw [show manualTracks ((lang, tl) :: rest)
          = ⟨lang, jsOr t.name lang, some t.url, none⟩ :: manualTracks rest from by
        simp only [manualTracks, hp]]
      rw [List.pairwise_cons]
      refine ⟨?_, ih htail⟩
      intro y hy
      rcases manualTracks_mem hy with ⟨q, hq, t2, _, rfl⟩
      exact hhead q hq

theorem addAutoTracks_mem_of {x : SubtitleTrack} :
    ∀ (l : List (String × List TrackRaw)) (acc : List SubtitleTrack),
    x ∈ acc → x ∈ addAutoTracks acc l := by
  intro l
  induction l with
  | nil => intro acc hx; simpa [addAutoTracks] using hx
  | cons p rest ih =>
    intro acc hx
    obtain ⟨lang, tl⟩ := p
    by_cases hfind : ((acc.find? (fun s => s.lang == lang)).isSome = true)
    · rw [show addAutoTracks acc ((lang, tl) :: rest) = addAutoTracks acc rest from by
        simp [addAutoTracks, hfind]]
      exact ih acc hx
    · cases hp : pickTrack tl with
      | some t =>
        rw [show addAutoTracks acc ((lang, tl) :: rest)
            = addAutoTracks (acc ++ [mkAutoTrack lang t]) rest from by
          simp [addAutoTracks, hfind, hp]]
        exact ih _ (List.mem_append_left _ hx)
      | none =>
        rw [show addAutoTracks acc ((lang, tl) :: rest) = addAutoTracks acc rest from by
          simp [addAutoTracks, hfind, hp]]
        exact ih acc hx

theorem addAutoTracks_mem_blocked {x : SubtitleTrack} {c : String} :
    ∀ (l : List (String × List TrackRaw)) (acc : List SubtitleTrack),
    (∃ s ∈ acc, s.lang = c) → x ∈ addAutoTracks acc l →
    x ∈ acc ∨ ∃ p ∈ l, p.1 ≠ c ∧ ∃ t, pickTrack p.2 = some t ∧ x = mkAutoTrack p.1 t := by
  intro l
  induction l with
  | nil => intro acc _ hx; left; simpa [addAutoTracks] using hx
  | cons p rest ih =>
    intro acc hc hx
    obtain ⟨lang, tl⟩ := p
    by_cases hfind : ((acc.find? (fun s => s.lang == lang)).isSome = true)
    · rw [show addAutoTracks acc ((lang, tl) :: rest) = addAutoTracks acc rest from by
        simp [addAutoTracks, hfind]] at hx
      rcases ih acc hc hx with h1 | ⟨q, hq, hqc, t, ht, hx2⟩
      · left; exact h1
      · right; exact ⟨q, List.mem_cons_of_mem _ hq, hqc, t, ht, hx2⟩
    · have hlangc : lang ≠ c := by
        rcases hc with ⟨s, hs, hsc⟩
        intro he
        apply hfind
        subst he
        cases hfe : acc.find? (fun x => x.lang == lang) with
        | some v => rfl
        | none =>
          rw [List.find?_eq_none] at hfe
          exact absurd (show (s.lang == lang) = true by simp [hsc]) (hfe s hs)
      cases hp : pickTrack tl with
      | some t =>
        rw [show addAutoTracks acc ((lang, tl) :: rest)
            = addAutoTracks (acc ++ [mkAutoTrack lang t]) rest from by
          simp [addAutoTracks, hfind, hp]] at hx
        rcases hc with ⟨s, hs, hsc⟩
        rcases ih (acc ++ [mkAutoTrack lang t]) ⟨s, List.mem_append_left _ hs, hsc⟩ hx with
          h1 | ⟨q, hq, hqc, t2, ht2, hx2⟩
        · rcases List.mem_append.mp h1 with h2 | h3
          · left; exact h2
          · right
            exact ⟨(lang, tl), List.mem_cons_self _ _, hlangc, t, hp, List.mem_singleton.mp h3⟩
        · right; exact ⟨q, List.mem_cons_of_mem _ hq, hqc, t2, ht2, hx2⟩
      | none =>
        rw [show addAutoTracks acc ((lang, tl) :: rest) = addAutoTracks acc rest from by
          simp [addAutoTracks, hfind, hp]] at hx
        rcases ih acc hc hx with h1 | ⟨q, hq, hqc, t2, ht2, hx2⟩
        · left; exact h1
        · right; exact ⟨q, List.mem_cons_of_mem _ hq, hqc, t2, ht2, hx2⟩

theorem addAutoTracks_pairwise :
    ∀ (l : List (String × List TrackRaw)) (acc : List SubtitleTrack),
    List.Pairwise (fun x y : SubtitleTrack => x.lang ≠ y.lang) acc →
    List.Pairwise (fun p q : String × List TrackRaw => p.1 ≠ q.1) l →
    (∀ s ∈ acc, ∀ p ∈ l, s.lang ≠ p.1 ++ " (auto)") →
    List.Pairwise (fun x y : SubtitleTrack => x.lang ≠ y.lang) (addAutoTracks acc l) := by
  intro l
  induction l with
  | nil => intro acc hacc _ _; simpa [addAutoTracks] using hacc
  | cons p rest ih =>
    intro acc hacc hkeys hsep
    obtain ⟨lang, tl⟩ := p
    rcases List.pairwise_cons.mp hkeys with ⟨hkh, hkt⟩
    by_cases hfind : ((acc.find? (fun s => s.lang == lang)).isSome = true)
    · rw [show addAutoTracks acc ((lang, tl) :: rest) = addAutoTracks acc rest from by
        simp [addAutoTracks, hfind]]
      exact ih acc hacc hkt fun s hs q hq => hsep s hs q (List.mem_cons_of_mem _ hq)
    · cases hp : pickTrack tl with
      | none =>
        rw [show addAutoTracks acc ((lang, tl) :: rest) = addAutoTracks acc rest from by
          simp [addAutoTracks, hfind, hp]]
        exact ih acc hacc hkt fun s hs q hq => hsep s hs q (List.mem_cons_of_mem _ hq)
      | some t =>
        rw [show addAutoTracks acc ((lang, tl) :: rest)
            = addAutoTracks (acc ++ [mkAutoTrack lang t]) rest from by
          simp [addAutoTracks, hfind, hp]]
        apply ih
        · rw [List.pairwise_append]
          refine ⟨hacc, by simp, ?_⟩
          intro a haa b hbb
          rcases List.mem_singleton.mp hbb with rfl
          exact hsep a haa (lang, tl) (List.mem_cons_self _ _)
        · exact hkt
        · intro s hs q hq
          rcases List.mem_append.mp hs with h1 | h2
          · exact hsep s h1 q (List.mem_cons_of_mem _ hq)
          · rcases List.mem_singleton.mp h2 with rfl
            intro he
            exact (hkh q hq) (append_auto_inj he)

theorem addAutoTracks_adds {c : String} {tl : List TrackRaw} {t : TrackRaw} :
    ∀ (l : List (String × List TrackRaw)) (acc : List SubtitleTrack),
    (c, tl) ∈ l → pickTrack tl = some t →
    (∀ s ∈ acc, s.lang ≠ c) →
    (∀ b : String, c ≠ b ++ " (auto)") →
    List.Pairwise (fun p q : String × List TrackRaw => p.1 ≠ q.1) l →
    mkAutoTrack c t ∈ addAutoTracks acc l := by
  intro l
  induction l with
  | nil => intro acc h; simp at h
  | cons p rest ih =>
    intro acc hmem hp hacc hnos hkeys
    obtain ⟨lang, tl2⟩ := p
    rcases List.pairwise_cons.mp hkeys with ⟨hkh, hkt⟩
    rcases List.mem_cons.mp hmem with h1 | h2
    · cases h1
      have hfind : ¬ ((acc.find? (fun s => s.lang == c)).isSome = true) := by
        rw [find?_lang_none_of hacc]
        simp
      rw [show addAutoTracks acc ((c, tl) :: rest)
          = addAutoTracks (acc ++ [mkAutoTrack c t]) rest from by
        simp [addAutoTracks, hfind, hp]]
      exact addAutoTracks_mem_of rest _ (List.mem_append_right _ (List.mem_singleton.mpr rfl))
    · have hlangc : lang ≠ c := fun he => (hkh (c, tl) h2) (by rw [he])
      by_cases hfind : ((acc.find? (fun s => s.lang == lang)).isSome = true)
      · rw [show addAutoTracks acc ((lang, tl2) :: rest) = addAutoTracks acc rest from by
          simp [addAutoTracks, hfind]]
        exact ih acc h2 hp hacc hnos hkt
      · cases hp2 : pickTrack tl2 with
        | none =>
          rw [show addAutoTracks acc ((lang, tl2) :: rest) = addAutoTracks acc rest from by
            simp [addAutoTracks, hfind, hp2]]
          exact ih acc h2 hp hacc hnos hkt
        | some t2 =>
          rw [show addAutoTracks acc ((lang, tl2) :: rest)
              = addAutoTracks (acc ++ [mkAutoTrack lang t2]) rest from by
            simp [addAutoTracks, hfind, hp2]]
          refine ih _ h2 hp ?_ hnos hkt
          intro s hs
          rcases List.mem_append.mp hs with hA | hB
          · exact hacc s hA
          · rcases List.mem_singleton.mp hB with rfl
            exact fun he => (hnos lang) he.symm

/-- C4 (amended).  For a metadata payload whose caption groups have
pairwise-distinct language codes (as JSON objects guarantee) and none of
whose codes already ends in `" (auto)"`: the exposed track list has at most
one track per language code; a manual track wins — its record is exposed
and no `" (auto)"`-suffixed twin of its code appears; and a language with a
pickable track present only in the automatic set is exposed with its code
suffixed `" (auto)"` and the `jsOr`-synthesized display name. -/
theorem getVideoInfo_track_invariant (info : RawInfo)
    (hm : List.Pairwise (fun p q => p.1 ≠ q.1) (info.subtitles.getD []))
    (ha : List.Pairwise (fun p q => p.1 ≠ q.1) (info.automatic_captions.getD []))
    (hno : ∀ p ∈ info.subtitles.getD [] ++ info.automatic_captions.getD [],
      hasAutoSuffix p.1 = false) :
    List.Pairwise (fun x y : SubtitleTrack => x.lang ≠ y.lang) (getVideoInfoTracks info) ∧
    (∀ c tl t, (c, tl) ∈ info.subtitles.getD [] → pickTrack tl = some t →
      (⟨c, jsOr t.name c, some t.url, none⟩ : SubtitleTrack) ∈ getVideoInfoTracks info ∧
      ∀ s ∈ getVideoInfoTracks info, s.lang ≠ c ++ " (auto)") ∧
    (∀ c tl t, (c, tl) ∈ info.automatic_captions.getD [] → pickTrack tl = some t →
      (∀ p ∈ info.subtitles.getD [], p.1 ≠ c) →
      mkAutoTrack c t ∈ getVideoInfoTracks info) := by
  have hnoM : ∀ p ∈ info.subtitles.getD [], hasAutoSuffix p.1 = false :=
    fun p hp => hno p (List.mem_append_left _ hp)
  have hnoA : ∀ p ∈ info.automatic_captions.getD [], hasAutoSuffix p.1 = false :=
    fun p hp => hno p (List.mem_append_right _ hp)
  unfold getVideoInfoTracks
  refine ⟨?_, ?_, ?_⟩
  · apply addAutoTracks_pairwise _ _ (manualTracks_pairwise hm) ha
    intro s hs q hq
    rcases manualTracks_mem hs with ⟨p, hp, t, _, rfl⟩
    exact ne_auto_append_of_no_suffix (hnoM p hp) _
  · intro c tl t hmem hp
    have hmmem : (⟨c, jsOr t.name c, some t.url, none⟩ : SubtitleTrack)
        ∈ manualTracks (info.subtitles.getD []) := manualTracks_mem_of hmem hp
    refine ⟨addAutoTracks_mem_of _ _ hmmem, ?_⟩
    intro s hs he
    rcases addAutoTracks_mem_blocked _ _ ⟨_, hmmem, rfl⟩ hs with h1 | ⟨q, hq, hqc, t2, ht2, rfl⟩
    · rcases manualTracks_mem h1 with ⟨p2, hp2, t3, _, rfl⟩
      exact ne_auto_append_of_no_suffix (hnoM p2 hp2) c he
    · exact hqc (append_auto_inj he)
  · intro c tl t hmem hp hman
    refine addAutoTracks_adds _ _ hmem hp ?_ ?_ ha
    · intro s hs
      rcases manualTracks_mem hs with ⟨p, hp2, t2, _, rfl⟩
      exact hman p hp2
    · exact ne_auto_append_of_no_suffix (hnoA (c, tl) hmem)

/-- A payload on which the claimed invariant fails as stated: a manual
language code that itself ends in `" (auto)"` collides with the suffixed
code of an automatic-only language. -/
def collideInfo : RawInfo :=
  ⟨some [("en (auto)", [⟨"vtt", "u1", none⟩])], some [("en", [⟨"vtt", "u2", none⟩])]⟩

/-- Counterexample to C4 as stated: on `collideInfo`, `getVideoInfo`
exposes two tracks with the same language code `"en (auto)"`. -/
theorem getVideoInfo_track_counterexample :
    ¬ List.Pairwise (fun x y : SubtitleTrack => x.lang ≠ y.lang)
      (getVideoInfoTracks collideInfo) := by
  decide

/-- Witness for the amended C4: with a manual `"en"` and an automatic
`"en"` track, exactly the manual record is exposed for `"en"`. -/
theorem getVideoInfo_track_invariant_witness :
    (⟨"en", "English", some "u1", none⟩ : SubtitleTrack) ∈ getVideoInfoTracks
      ⟨some [("en", [⟨"vtt", "u1", some "English"⟩])], some [("en", [⟨"vtt", "u2", none⟩])]⟩ :=
  ((getVideoInfo_track_invariant
      ⟨some [("en", [⟨"vtt", "u1", some "English"⟩])], some [("en", [⟨"vtt", "u2", none⟩])]⟩
      (by decide) (by decide) (by decide)).2.1 "en" [⟨"vtt", "u1", some "English"⟩]
      ⟨"vtt", "u1", some "English"⟩ (by decide) rfl).1

end Ytdlp
